import Mathlib

/-!
Shallow embedding of the beverage inventory and sales subsystem
(`DrinkDatabase` in `task_2.py`).

Modelling conventions:
* SQLite REAL columns and Python floats are modelled as exact rationals `ℚ`
  (all concrete inputs used below are dyadic, on which Python float
  arithmetic is exact), INTEGER columns as `ℤ`, ids as `Nat`.
* Each table is an association list kept in insertion order, matching
  SQLite row order for these append-only tables; `AUTOINCREMENT` is a
  counter carried in the state.
* The tkinter `messagebox` error paths are modelled as result variants:
  the Python methods return `False` and show a message whose text
  distinguishes the failure kind.
* The `date` column of `sales` is omitted: no verified property mentions it.
* Reads (`get_…`, `check_cocktail_availability`) are pure functions of the
  state by construction; mutators return the new state.
-/

namespace Drinks

structure Ingredient where
  name : String
  alcohol_percent : ℚ
  volume_ml : ℚ
  quantity : ℤ
  price_per_unit : ℚ
deriving DecidableEq, Repr

structure Cocktail where
  name : String
  price : ℚ
deriving DecidableEq, Repr

structure Sale where
  item_type : String
  item_id : Nat
  quantity : ℚ
  total_price : ℚ
deriving DecidableEq, Repr

structure DB where
  ingredients : List (Nat × Ingredient)
  nextIngId : Nat
  cocktails : List (Nat × Cocktail)
  nextCockId : Nat
  recipes : List (Nat × Nat × ℚ)  -- (cocktail_id, ingredient_id, volume_ml)
  sales : List Sale
deriving DecidableEq, Repr

/-- `SELECT * FROM ingredients WHERE id=?` -/
def get_ingredient_by_id (db : DB) (i : Nat) : Option Ingredient :=
  (db.ingredients.find? fun p => p.1 == i).map (·.2)

/-- `UPDATE ingredients SET quantity = quantity + ? WHERE id=?`; the Bool is
`rowcount > 0`. The delta is applied unconditionally, as in the source. -/
def update_ingredient_quantity (db : DB) (i : Nat) (delta : ℤ) : DB × Bool :=
  ({ db with ingredients :=
      db.ingredients.map fun p =>
        if p.1 == i then (p.1, { p.2 with quantity := p.2.quantity + delta }) else p },
   db.ingredients.any fun p => p.1 == i)

def appendSale (db : DB) (s : Sale) : DB := { db with sales := db.sales ++ [s] }

/-- `add_ingredient`: the UNIQUE constraint on `name` raises
`IntegrityError`, re-raised as `ValueError` (modelled as `none`). -/
def add_ingredient (db : DB) (ing : Ingredient) : DB × Option Nat :=
  if db.ingredients.any fun p => p.2.name == ing.name then (db, none)
  else ({ db with
            ingredients := db.ingredients ++ [(db.nextIngId, ing)]
            nextIngId := db.nextIngId + 1 },
        some db.nextIngId)

/-- `add_cocktail`: only the UNIQUE constraint on the cocktail name can
fail (foreign keys are not enforced by the sqlite3 connection); every
recipe line is inserted as given, including lines whose ingredient id does
not exist, and an empty mapping is accepted.  The caller passes a Python
dict, so line ingredient ids are pairwise distinct. -/
def add_cocktail (db : DB) (nm : String) (price : ℚ) (recipe : List (Nat × ℚ)) :
    DB × Option Nat :=
  if db.cocktails.any fun p => p.2.name == nm then (db, none)
  else ({ db with
            cocktails := db.cocktails ++ [(db.nextCockId, ⟨nm, price⟩)]
            recipes := db.recipes ++ recipe.map fun l => (db.nextCockId, l.1, l.2)
            nextCockId := db.nextCockId + 1 },
        some db.nextCockId)

/-- Rows of `recipes` with the given cocktail id (`WHERE r.cocktail_id = ?`). -/
def recipeRows (db : DB) (cid : Nat) : List (Nat × Nat × ℚ) :=
  db.recipes.filter fun r => r.1 == cid

/-- `SELECT r.volume_ml, i.id, i.alcohol_percent FROM recipes r JOIN
ingredients i ON r.ingredient_id = i.id WHERE r.cocktail_id = ?`.
The inner join silently drops lines whose ingredient id is absent.
Result entries: (ingredient_id, volume_ml, alcohol_percent). -/
def joinedLines (db : DB) (cid : Nat) : List (Nat × ℚ × ℚ) :=
  (recipeRows db cid).filterMap fun r =>
    (get_ingredient_by_id db r.2.1).map fun ing => (r.2.1, r.2.2, ing.alcohol_percent)

/-- Python `round(x, 1)` = round-half-to-even at one decimal place. -/
def roundHalfEven (x : ℚ) : ℤ :=
  if x - ⌊x⌋ < 1/2 then ⌊x⌋
  else if 1/2 < x - ⌊x⌋ then ⌊x⌋ + 1
  else if ⌊x⌋ % 2 = 0 then ⌊x⌋ else ⌊x⌋ + 1

def pyRound1 (x : ℚ) : ℚ := (roundHalfEven (10 * x) : ℚ) / 10

structure CocktailView where
  id : Nat
  name : String
  price : ℚ
  recipe : List (Nat × ℚ)
  alcohol_percent : ℚ
  volume : ℚ
deriving DecidableEq, Repr

/-- The dictionary built by `get_cocktail_by_id` (and, field for field
except that the displayed recipe mapping is keyed by the unique ingredient
name instead of its id, by `get_all_cocktails`): accumulates
`total_alcohol += vol * alcohol / 100` and `total_volume += vol` over the
joined lines, then `alcohol_percent = round(total_alcohol / total_volume *
100, 1)` when `total_volume > 0`, else `0`. -/
def mkView (db : DB) (cid : Nat) (c : Cocktail) : CocktailView :=
  let lines := joinedLines db cid
  let total_alcohol := lines.foldl (fun a l => a + l.2.1 * l.2.2 / 100) 0
  let total_volume := lines.foldl (fun a l => a + l.2.1) 0
  { id := cid, name := c.name, price := c.price,
    recipe := lines.map fun l => (l.1, l.2.1),
    alcohol_percent :=
      pyRound1 (if 0 < total_volume then total_alcohol / total_volume * 100 else 0),
    volume := total_volume }

def get_cocktail_by_id (db : DB) (cid : Nat) : Option CocktailView :=
  (db.cocktails.find? fun p => p.1 == cid).map fun p => mkView db cid p.2

/-- Stable insertion sort modelling `ORDER BY name` (cocktail names are
UNIQUE, so any sort agrees). -/
def insertByName (p : Nat × Cocktail) : List (Nat × Cocktail) → List (Nat × Cocktail)
  | [] => [p]
  | q :: t => if p.2.name ≤ q.2.name then p :: q :: t else q :: insertByName p t

def sortByName : List (Nat × Cocktail) → List (Nat × Cocktail)
  | [] => []
  | p :: t => insertByName p (sortByName t)

def get_all_cocktails (db : DB) : List CocktailView :=
  (sortByName db.cocktails).map fun p => mkView db p.1 p.2

/-- Structured counterpart of the `(bool, str)` pair returned by
`check_cocktail_availability`; the string messages are distinguished by
their kind and payload. -/
inductive Reason where
  | available
  | cocktailNotFound
  | ingredientMissing (i : Nat)
  | outOfStock (nm : String)
  | insufficient (nm : String) (need : ℚ) (got : ℚ)
deriving DecidableEq, Repr

def checkLines (db : DB) : List (Nat × ℚ) → Bool × Reason
  | [] => (true, Reason.available)
  | (i, need) :: rest =>
    match get_ingredient_by_id db i with
    | none => (false, Reason.ingredientMissing i)
    | some ing =>
      if ing.quantity ≤ 0 then (false, Reason.outOfStock ing.name)
      else if (ing.quantity : ℚ) * ing.volume_ml < need then
        (false, Reason.insufficient ing.name need ((ing.quantity : ℚ) * ing.volume_ml))
      else checkLines db rest

def check_cocktail_availability (db : DB) (cid : Nat) : Bool × Reason :=
  match get_cocktail_by_id db cid with
  | none => (false, Reason.cocktailNotFound)
  | some c => checkLines db c.recipe

/-- `units_needed = (need_vol + ing.volume_ml - 1) // ing.volume_ml`
(Python float floor division). -/
def units_needed (need vol : ℚ) : ℤ := ⌊(need + vol - 1) / vol⌋

/-- The depletion loop of `sell_cocktail`.  The `none` branch is
unreachable after a successful availability check (the Python code would
raise `AttributeError` there); it is skipped to keep the function total. -/
def sellLoop (db : DB) : List (Nat × ℚ) → DB
  | [] => db
  | (i, need) :: rest =>
    match get_ingredient_by_id db i with
    | none => sellLoop db rest
    | some ing =>
      sellLoop (update_ingredient_quantity db i (-(units_needed need ing.volume_ml))).1 rest

inductive SellCockResult where
  | ok
  | notFound
  | unavailable (r : Reason)
deriving DecidableEq, Repr

def sell_cocktail (db : DB) (cid : Nat) : DB × SellCockResult :=
  match get_cocktail_by_id db cid with
  | none => (db, SellCockResult.notFound)
  | some c =>
    let chk := check_cocktail_availability db cid
    if chk.1 then
      (appendSale (sellLoop db c.recipe)
        { item_type := "cocktail", item_id := cid, quantity := 1, total_price := c.price },
       SellCockResult.ok)
    else (db, SellCockResult.unavailable chk.2)

inductive SellIngResult where
  | ok
  | notFound
  | insufficient
deriving DecidableEq, Repr

def sell_ingredient (db : DB) (i : Nat) (q : ℤ) : DB × SellIngResult :=
  match get_ingredient_by_id db i with
  | none => (db, SellIngResult.notFound)
  | some ing =>
    if ing.quantity < q then (db, SellIngResult.insufficient)
    else
      (appendSale (update_ingredient_quantity db i (-q)).1
        { item_type := "ingredient", item_id := i, quantity := (q : ℚ),
          total_price := (q : ℚ) * ing.price_per_unit },
       SellIngResult.ok)

inductive RestockResult where
  | ok
  | notFound
deriving DecidableEq, Repr

/-- `restock_ingredient`: no validation of the quantity's sign happens in
this method (the GUI dialog rejects non-positive input before calling). -/
def restock_ingredient (db : DB) (i : Nat) (q : ℤ) : DB × RestockResult :=
  match get_ingredient_by_id db i with
  | none => (db, RestockResult.notFound)
  | some _ => ((update_ingredient_quantity db i q).1, RestockResult.ok)

/-- One mutating call of the four kinds named by the spec's invariant. -/
inductive Op where
  | adjust (i : Nat) (d : ℤ)
  | sellIng (i : Nat) (q : ℤ)
  | sellCock (cid : Nat)
  | restock (i : Nat) (q : ℤ)
deriving DecidableEq, Repr

def run (db : DB) : Op → DB
  | Op.adjust i d => (update_ingredient_quantity db i d).1
  | Op.sellIng i q => (sell_ingredient db i q).1
  | Op.sellCock cid => (sell_cocktail db cid).1
  | Op.restock i q => (restock_ingredient db i q).1

def runOps (db : DB) (ops : List Op) : DB := ops.foldl run db

/-- Calls that keep to the spec's contract: direct quantity adjustments and
restocks never pass a negative amount (sales may request anything: the
methods themselves validate). -/
def goodOp : Op → Bool
  | Op.adjust _ d => decide (0 ≤ d)
  | Op.restock _ q => decide (0 ≤ q)
  | Op.sellIng _ _ => true
  | Op.sellCock _ => true

/-- All stock quantities on hand are non-negative. -/
def qtysNonneg (db : DB) : Prop := ∀ p ∈ db.ingredients, 0 ≤ p.2.quantity

instance (db : DB) : Decidable (qtysNonneg db) := List.decidableBAll _ _

/-- Structural invariants maintained by the SQLite schema: primary-key
uniqueness of ingredient and cocktail ids and of (cocktail, ingredient)
recipe pairs, and positive unit volumes (documented invariant of §3). -/
def wf (db : DB) : Prop :=
  (db.ingredients.map Prod.fst).Nodup ∧
  (db.cocktails.map Prod.fst).Nodup ∧
  (∀ p ∈ db.ingredients, 0 < p.2.volume_ml) ∧
  (db.recipes.map fun r => (r.1, r.2.1)).Nodup

instance (db : DB) : Decidable (wf db) := by unfold wf; infer_instance

/-- A recipe line passes the availability check. -/
def linePasses (db : DB) (l : Nat × ℚ) : Prop :=
  ∃ ing, get_ingredient_by_id db l.1 = some ing ∧ 0 < ing.quantity ∧
    l.2 ≤ (ing.quantity : ℚ) * ing.volume_ml

/-- Quantity on hand of ingredient `i`, as read back from the ledger. -/
def qty (db : DB) (i : Nat) : Option ℤ := (get_ingredient_by_id db i).map (·.quantity)

/-- Spec §3: total volume = Σ volume_i over the recipe's lines. -/
def totalVolumeSpec (lines : List (Nat × ℚ × ℚ)) : ℚ := (lines.map fun l => l.2.1).sum

/-- Spec §3: blended strength = Σ(volume_i × strength_i) / Σ(volume_i),
zero when the total volume is zero. -/
def blendedStrength (lines : List (Nat × ℚ × ℚ)) : ℚ :=
  if totalVolumeSpec lines = 0 then 0
  else (lines.map fun l => l.2.1 * l.2.2).sum / totalVolumeSpec lines

/-! ### Concrete states used to instantiate the theorems -/

def dbW1 : DB :=
  { ingredients := [(1, ⟨"Vodka", 40, 50, 2, 20⟩)]
    nextIngId := 2
    cocktails := [(1, ⟨"Screwdriver", 150⟩)]
    nextCockId := 2
    recipes := [(1, 1, 100)]
    sales := [] }

def dbC1 : DB :=
  { ingredients := [(1, ⟨"Gin", 40, 700, 0, 25⟩)]
    nextIngId := 2
    cocktails := []
    nextCockId := 1
    recipes := []
    sales := [] }

def dbW2 : DB :=
  { ingredients := [(1, ⟨"Tequila", 38, 50, 2, 30⟩)]
    nextIngId := 2
    cocktails := [(1, ⟨"Shot", 90⟩)]
    nextCockId := 2
    recipes := [(1, 1, 80)]
    sales := [] }

def dbC2 : DB :=
  { ingredients := []
    nextIngId := 1
    cocktails := [(1, ⟨"Ghost", 100⟩)]
    nextCockId := 2
    recipes := [(1, 99, 10)]
    sales := [] }

def dbW3 : DB :=
  { ingredients := [(1, ⟨"Rum", 40, 50, 5, 20⟩)]
    nextIngId := 2
    cocktails := [(1, ⟨"Mix", 150⟩)]
    nextCockId := 2
    recipes := [(1, 1, 120)]
    sales := [] }

def dbC3 : DB :=
  { ingredients := [(1, ⟨"Syrup", 0, 50, 1, 5⟩)]
    nextIngId := 2
    cocktails := [(1, ⟨"Drop", 10⟩)]
    nextCockId := 2
    recipes := [(1, 1, 1/2)]
    sales := [] }

def dbW4 : DB :=
  { ingredients := [(1, ⟨"Whiskey", 43, 50, 0, 35⟩)]
    nextIngId := 2
    cocktails := [(1, ⟨"Sour", 120⟩)]
    nextCockId := 2
    recipes := [(1, 1, 10)]
    sales := [] }

def dbW5 : DB :=
  { ingredients := [(1, ⟨"Gin", 40, 700, 7, 20⟩)]
    nextIngId := 2
    cocktails := []
    nextCockId := 1
    recipes := []
    sales := [] }

def dbC6 : DB :=
  { ingredients := [(1, ⟨"A", 40, 700, 3, 20⟩), (2, ⟨"B", 0, 700, 3, 10⟩)]
    nextIngId := 3
    cocktails := [(1, ⟨"Mix", 100⟩)]
    nextCockId := 2
    recipes := [(1, 1, 100), (1, 2, 50)]
    sales := [] }

def dbW7 : DB :=
  { ingredients := [(1, ⟨"Vermouth", 18, 500, 4, 12⟩)]
    nextIngId := 2
    cocktails := [(1, ⟨"Old", 99⟩)]
    nextCockId := 2
    recipes := [(1, 1, 30)]
    sales := [] }

def dbC7 : DB :=
  { ingredients := []
    nextIngId := 1
    cocktails := []
    nextCockId := 1
    recipes := []
    sales := [] }

def dbC8 : DB :=
  { ingredients := [(1, ⟨"Vodka", 40, 50, 5, 20⟩)]
    nextIngId := 2
    cocktails := []
    nextCockId := 1
    recipes := []
    sales := [] }

def dbW9 : DB :=
  { ingredients := [(1, ⟨"Vodka", 40, 50, 5, 20⟩)]
    nextIngId := 2
    cocktails := []
    nextCockId := 1
    recipes := []
    sales := [] }

def dbW10 : DB :=
  { ingredients := [(1, ⟨"R", 45, 700, 2, 30⟩), (2, ⟨"S", 20, 700, 2, 10⟩)]
    nextIngId := 3
    cocktails := [(1, ⟨"T", 80⟩)]
    nextCockId := 2
    recipes := [(1, 1, 100), (1, 2, 60)]
    sales := [] }

/-! ### Basic lemmas about the ingredient ledger -/

theorem find?_eq_some_of_nodup {α : Type} (l : List (Nat × α)) (i : Nat) (a : α)
    (hnd : (l.map Prod.fst).Nodup) (h : (i, a) ∈ l) :
    l.find? (fun p => p.1 == i) = some (i, a) := by
  induction l with
  | nil => simp at h
  | cons q t ih =>
    simp only [List.map_cons, List.nodup_cons] at hnd
    by_cases hqi : q.1 = i
    · rcases List.mem_cons.1 h with h1 | h1
      · rw [← h1]; simp
      · exact absurd (List.mem_map.2 ⟨(i, a), h1, rfl⟩) (by rw [hqi] at hnd; exact hnd.1)
    · have h1 : (i, a) ∈ t := by
        rcases List.mem_cons.1 h with h2 | h2
        · exact absurd (congrArg Prod.fst h2.symm) hqi
        · exact h2
      rw [List.find?_cons_of_neg _ (by simp [hqi])]
      exact ih hnd.2 h1

theorem get_ingredient_mem {db : DB} {i : Nat} {ing : Ingredient}
    (h : get_ingredient_by_id db i = some ing) : (i, ing) ∈ db.ingredients := by
  unfold get_ingredient_by_id at h
  cases hf : db.ingredients.find? (fun p => p.1 == i) with
  | none => rw [hf] at h; simp at h
  | some p =>
    rw [hf] at h
    have hp1 : p.1 = i := by simpa using List.find?_some hf
    have hmem := List.mem_of_find?_eq_some hf
    have hp2 : p.2 = ing := by simpa using h
    rw [← hp1, ← hp2]
    simpa using hmem

theorem get_ingredient_of_mem_nodup {db : DB} {i : Nat} {ing : Ingredient}
    (hnd : (db.ingredients.map Prod.fst).Nodup) (h : (i, ing) ∈ db.ingredients) :
    get_ingredient_by_id db i = some ing := by
  unfold get_ingredient_by_id
  rw [find?_eq_some_of_nodup db.ingredients i ing hnd h]
  rfl

theorem update_recipes (db : DB) (i : Nat) (d : ℤ) :
    (update_ingredient_quantity db i d).1.recipes = db.recipes := rfl

theorem update_cocktails (db : DB) (i : Nat) (d : ℤ) :
    (update_ingredient_quantity db i d).1.cocktails = db.cocktails := rfl

theorem update_sales (db : DB) (i : Nat) (d : ℤ) :
    (update_ingredient_quantity db i d).1.sales = db.sales := rfl

theorem update_map_fst (db : DB) (i : Nat) (d : ℤ) :
    (update_ingredient_quantity db i d).1.ingredients.map Prod.fst =
      db.ingredients.map Prod.fst := by
  unfold update_ingredient_quantity
  simp only [List.map_map]
  apply List.map_congr_left
  intro p _
  by_cases h : p.1 = i <;> simp [h]

theorem get_ingredient_update (db : DB) (i : Nat) (d : ℤ) (j : Nat) :
    get_ingredient_by_id (update_ingredient_quantity db i d).1 j =
      if j = i then
        (get_ingredient_by_id db j).map fun ing => { ing with quantity := ing.quantity + d }
      else get_ingredient_by_id db j := by
  unfold get_ingredient_by_id update_ingredient_quantity
  simp only [List.find?_map]
  have hpred : ((fun p : Nat × Ingredient => p.1 == j) ∘
      fun p : Nat × Ingredient =>
        if p.1 == i then (p.1, { p.2 with quantity := p.2.quantity + d }) else p) =
      fun p : Nat × Ingredient => p.1 == j := by
    funext p
    by_cases h : p.1 = i <;> simp [h]
  rw [hpred]
  cases hf : db.ingredients.find? (fun p => p.1 == j) with
  | none => by_cases h : j = i <;> simp [h]
  | some p =>
    have hp1 : p.1 = j := by simpa using List.find?_some hf
    by_cases h : j = i
    · subst h
      simp [Option.map_map, hp1]
    · simp [Option.map_map, hp1, h]

theorem update_vols_pos {db : DB} (i : Nat) (d : ℤ)
    (h : ∀ p ∈ db.ingredients, 0 < p.2.volume_ml) :
    ∀ p ∈ (update_ingredient_quantity db i d).1.ingredients, 0 < p.2.volume_ml := by
  unfold update_ingredient_quantity
  intro p hp
  simp only [List.mem_map] at hp
  obtain ⟨q, hq, rfl⟩ := hp
  by_cases hqi : q.1 = i <;> simp [hqi, h q hq]

theorem qtysNonneg_update {db : DB} {i : Nat} {d : ℤ}
    (hnd : (db.ingredients.map Prod.fst).Nodup) (h0 : qtysNonneg db)
    (hq : ∀ ing, get_ingredient_by_id db i = some ing → 0 ≤ ing.quantity + d) :
    qtysNonneg (update_ingredient_quantity db i d).1 := by
  unfold update_ingredient_quantity qtysNonneg
  intro p hp
  simp only [List.mem_map] at hp
  obtain ⟨q, hqmem, rfl⟩ := hp
  by_cases hqi : q.1 = i
  · have hget : get_ingredient_by_id db i = some q.2 :=
      get_ingredient_of_mem_nodup hnd (by rw [← hqi]; exact hqmem)
    simpa [hqi] using hq q.2 hget
  · simpa [hqi] using h0 q hqmem

theorem appendSale_ingredients (db : DB) (s : Sale) :
    (appendSale db s).ingredients = db.ingredients := rfl

theorem get_ingredient_appendSale (db : DB) (s : Sale) (i : Nat) :
    get_ingredient_by_id (appendSale db s) i = get_ingredient_by_id db i := rfl

/-! ### The availability check -/

theorem checkLines_cons_pass {db : DB} {l : Nat × ℚ} {xs : List (Nat × ℚ)}
    (h : linePasses db l) : checkLines db (l :: xs) = checkLines db xs := by
  obtain ⟨i, need⟩ := l
  obtain ⟨ing, hget, h1, h2⟩ := h
  dsimp only at hget h2
  simp only [checkLines, hget]
  rw [if_neg (not_le.2 h1), if_neg (not_lt.2 h2)]

theorem checkLines_append_pass {db : DB} {pre xs : List (Nat × ℚ)}
    (h : ∀ l ∈ pre, linePasses db l) :
    checkLines db (pre ++ xs) = checkLines db xs := by
  induction pre with
  | nil => rfl
  | cons l t ih =>
    rw [List.cons_append, checkLines_cons_pass (h l (by simp))]
    exact ih fun x hx => h x (by simp [hx])

theorem checkLines_true_iff (db : DB) (lines : List (Nat × ℚ)) :
    (checkLines db lines).1 = true ↔ ∀ l ∈ lines, linePasses db l := by
  induction lines with
  | nil => simp [checkLines]
  | cons l t ih =>
    obtain ⟨i, need⟩ := l
    constructor
    · intro h
      unfold checkLines at h
      cases hget : get_ingredient_by_id db i with
      | none => rw [hget] at h; simp at h
      | some ing =>
        rw [hget] at h
        by_cases h1 : ing.quantity ≤ 0
        · simp [h1] at h
        · by_cases h2 : (ing.quantity : ℚ) * ing.volume_ml < need
          · simp [h1, h2] at h
          · intro x hx
            rcases List.mem_cons.1 hx with hx1 | hx1
            · rw [hx1]
              exact ⟨ing, hget, not_le.1 h1, not_lt.1 h2⟩
            · have ht : (checkLines db t).1 = true := by
                simpa [h1, h2] using h
              exact (ih.1 ht) x hx1
    · intro h
      rw [checkLines_cons_pass (h (i, need) (by simp))]
      exact ih.2 fun x hx => h x (by simp [hx])

/-! ### Units consumed by a recipe sale -/

theorem units_needed_le {need vol : ℚ} {q : ℤ} (hv : 0 < vol)
    (h : need ≤ (q : ℚ) * vol) : units_needed need vol ≤ q := by
  unfold units_needed
  rw [Int.floor_le_iff]
  rw [div_lt_iff₀ hv]
  nlinarith

theorem units_needed_natCast (a b : ℕ) (hb : 0 < b) :
    units_needed (a : ℚ) (b : ℚ) = ⌈(a : ℚ) / (b : ℚ)⌉ := by
  have hbq : (0 : ℚ) < (b : ℚ) := by exact_mod_cast hb
  set c : ℤ := ⌈(a : ℚ) / (b : ℚ)⌉ with hc
  have h1 : (a : ℚ) / (b : ℚ) ≤ (c : ℚ) := Int.le_ceil _
  have ha : (a : ℚ) ≤ (c : ℚ) * b := (div_le_iff₀ hbq).1 h1
  have h2 : (c : ℚ) < (a : ℚ) / (b : ℚ) + 1 := by
    exact_mod_cast Int.ceil_lt_add_one ((a : ℚ) / (b : ℚ))
  have h2' : (c : ℚ) - 1 < (a : ℚ) / (b : ℚ) := by linarith
  have h3 : ((c : ℚ) - 1) * b < (a : ℚ) := (lt_div_iff₀ hbq).1 h2'
  have hcb : c * b < (a : ℤ) + b := by
    have hq : (c : ℚ) * b < (a : ℚ) + b := by nlinarith [h3]
    exact_mod_cast hq
  have hcb' : c * b ≤ (a : ℤ) + b - 1 := by omega
  unfold units_needed
  apply le_antisymm
  · rw [Int.floor_le_iff, div_lt_iff₀ hbq]
    nlinarith [ha]
  · rw [Int.le_floor, le_div_iff₀ hbq]
    exact_mod_cast hcb'

/-! ### The depletion loop of `sell_cocktail` -/

theorem sellLoop_recipes (db : DB) (lines : List (Nat × ℚ)) :
    (sellLoop db lines).recipes = db.recipes := by
  induction lines generalizing db with
  | nil => rfl
  | cons l t ih =>
    obtain ⟨i, need⟩ := l
    unfold sellLoop
    cases hget : get_ingredient_by_id db i with
    | none => exact ih db
    | some ing => rw [ih]; rfl

theorem sellLoop_cocktails (db : DB) (lines : List (Nat × ℚ)) :
    (sellLoop db lines).cocktails = db.cocktails := by
  induction lines generalizing db with
  | nil => rfl
  | cons l t ih =>
    obtain ⟨i, need⟩ := l
    unfold sellLoop
    cases hget : get_ingredient_by_id db i with
    | none => exact ih db
    | some ing => rw [ih]; rfl

theorem sellLoop_sales (db : DB) (lines : List (Nat × ℚ)) :
    (sellLoop db lines).sales = db.sales := by
  induction lines generalizing db with
  | nil => rfl
  | cons l t ih =>
    obtain ⟨i, need⟩ := l
    unfold sellLoop
    cases hget : get_ingredient_by_id db i with
    | none => exact ih db
    | some ing => rw [ih]; rfl

theorem sellLoop_map_fst (db : DB) (lines : List (Nat × ℚ)) :
    (sellLoop db lines).ingredients.map Prod.fst = db.ingredients.map Prod.fst := by
  induction lines generalizing db with
  | nil => rfl
  | cons l t ih =>
    obtain ⟨i, need⟩ := l
    unfold sellLoop
    cases hget : get_ingredient_by_id db i with
    | none => exact ih db
    | some ing => rw [ih, update_map_fst]

theorem sellLoop_get_not_mem {db : DB} {lines : List (Nat × ℚ)} {i : Nat}
    (h : i ∉ lines.map Prod.fst) :
    get_ingredient_by_id (sellLoop db lines) i = get_ingredient_by_id db i := by
  induction lines generalizing db with
  | nil => rfl
  | cons l t ih =>
    obtain ⟨j, need⟩ := l
    simp only [List.map_cons, List.mem_cons] at h
    push_neg at h
    unfold sellLoop
    cases hget : get_ingredient_by_id db j with
    | none => exact ih h.2
    | some ing =>
      rw [ih h.2, get_ingredient_update]
      simp [h.1]

theorem sellLoop_get_mem {db : DB} {lines : List (Nat × ℚ)} {i : Nat} {need : ℚ}
    {ing : Ingredient} (hnd : (lines.map Prod.fst).Nodup)
    (hmem : (i, need) ∈ lines) (hget : get_ingredient_by_id db i = some ing) :
    get_ingredient_by_id (sellLoop db lines) i =
      some { ing with quantity := ing.quantity - units_needed need ing.volume_ml } := by
  induction lines generalizing db with
  | nil => simp at hmem
  | cons l t ih =>
    obtain ⟨j, nv⟩ := l
    simp only [List.map_cons, List.nodup_cons] at hnd
    rcases List.mem_cons.1 hmem with h1 | h1
    · have e1 : i = j := congrArg Prod.fst h1
      have e2 : need = nv := congrArg Prod.snd h1
      subst e1; subst e2
      unfold sellLoop
      rw [hget]
      rw [sellLoop_get_not_mem hnd.1, get_ingredient_update]
      simp [hget, sub_eq_add_neg]
    · have hji : j ≠ i := by
        intro hj
        exact hnd.1 (hj ▸ List.mem_map.2 ⟨(i, need), h1, rfl⟩)
      unfold sellLoop
      cases hget2 : get_ingredient_by_id db j with
      | none => exact ih hnd.2 h1 hget
      | some ing2 =>
        apply ih hnd.2 h1
        rw [get_ingredient_update]
        simp [hji, Ne.symm hji, hget]

/-! ### Uniqueness of recipe line ingredients (PRIMARY KEY (cocktail_id, ingredient_id)) -/

theorem nodup_snd_of_const_fst (l : List (Nat × Nat)) (c : Nat)
    (hf : ∀ p ∈ l, p.1 = c) (hnd : l.Nodup) : (l.map Prod.snd).Nodup := by
  induction l with
  | nil => simp
  | cons q t ih =>
    simp only [List.map_cons, List.nodup_cons] at hnd ⊢
    refine ⟨?_, ih (fun p hp => hf p (by simp [hp])) hnd.2⟩
    intro hmem
    obtain ⟨p, hp, he⟩ := List.mem_map.1 hmem
    have hpq : p = q := by
      have h1 : p.1 = q.1 := (hf p (by simp [hp])).trans (hf q (by simp)).symm
      cases p; cases q
      simp only at h1 he
      simp [h1, he]
    exact hnd.1 (hpq ▸ hp)

theorem recipeRows_ids_nodup (db : DB) (cid : Nat)
    (hnd : (db.recipes.map fun r => (r.1, r.2.1)).Nodup) :
    ((recipeRows db cid).map fun r => r.2.1).Nodup := by
  have hsub : ((recipeRows db cid).map fun r => (r.1, r.2.1)).Sublist
      (db.recipes.map fun r => (r.1, r.2.1)) :=
    (List.filter_sublist _).map _
  have hpairs : ((recipeRows db cid).map fun r => (r.1, r.2.1)).Nodup := hnd.sublist hsub
  have hconst : ∀ p ∈ (recipeRows db cid).map fun r => (r.1, r.2.1), p.1 = cid := by
    intro p hp
    obtain ⟨r, hr, rfl⟩ := List.mem_map.1 hp
    have := List.of_mem_filter hr
    simpa using this
  have := nodup_snd_of_const_fst _ cid hconst hpairs
  simpa [List.map_map, Function.comp] using this

theorem map_fst_filterMap_sublist (db : DB) (l : List (Nat × Nat × ℚ)) :
    ((l.filterMap fun r => (get_ingredient_by_id db r.2.1).map fun ing =>
        (r.2.1, r.2.2, ing.alcohol_percent)).map (fun x => x.1)).Sublist
      (l.map fun r => r.2.1) := by
  induction l with
  | nil => simp
  | cons r t ih =>
    rw [List.filterMap_cons]
    cases hg : get_ingredient_by_id db r.2.1 with
    | none =>
      simp only [Option.map_none']
      exact ih.cons _
    | some ing =>
      simp only [Option.map_some']
      rw [List.map_cons, List.map_cons]
      exact ih.cons₂ _

theorem joined_ids_nodup (db : DB) (cid : Nat)
    (hnd : (db.recipes.map fun r => (r.1, r.2.1)).Nodup) :
    ((joinedLines db cid).map (fun l => l.1)).Nodup := by
  apply List.Nodup.sublist _ (recipeRows_ids_nodup db cid hnd)
  unfold joinedLines
  exact map_fst_filterMap_sublist db _

/-! ### The cocktail views -/

theorem get_cocktail_view {db : DB} {cid : Nat} {c : CocktailView}
    (h : get_cocktail_by_id db cid = some c) : ∃ co, c = mkView db cid co := by
  unfold get_cocktail_by_id at h
  cases hf : db.cocktails.find? (fun p => p.1 == cid) with
  | none => rw [hf] at h; simp at h
  | some p =>
    rw [hf] at h
    exact ⟨p.2, by simpa using h.symm⟩

theorem mkView_recipe (db : DB) (cid : Nat) (co : Cocktail) :
    (mkView db cid co).recipe = (joinedLines db cid).map fun l => (l.1, l.2.1) := rfl

theorem mkView_id (db : DB) (cid : Nat) (co : Cocktail) : (mkView db cid co).id = cid := rfl

theorem foldl_add_eq {α : Type} (f : α → ℚ) (l : List α) (a : ℚ) :
    l.foldl (fun acc x => acc + f x) a = a + (l.map f).sum := by
  induction l generalizing a with
  | nil => simp
  | cons x t ih => simp [ih, add_assoc]

theorem sum_map_div {α : Type} (f : α → ℚ) (c : ℚ) (l : List α) :
    (l.map fun x => f x / c).sum = (l.map f).sum / c := by
  induction l with
  | nil => simp
  | cons x t ih => simp [ih, add_div]

theorem mkView_volume (db : DB) (cid : Nat) (co : Cocktail) :
    (mkView db cid co).volume = totalVolumeSpec (joinedLines db cid) := by
  unfold mkView totalVolumeSpec
  simp [foldl_add_eq (fun l : Nat × ℚ × ℚ => l.2.1)]

theorem mkView_alcohol (db : DB) (cid : Nat) (co : Cocktail)
    (h0 : ∀ l ∈ joinedLines db cid, 0 ≤ l.2.1) :
    (mkView db cid co).alcohol_percent = pyRound1 (blendedStrength (joinedLines db cid)) := by
  unfold mkView blendedStrength
  apply congrArg pyRound1
  have hT : (joinedLines db cid).foldl (fun a l => a + l.2.1) 0 =
      totalVolumeSpec (joinedLines db cid) := by
    rw [foldl_add_eq (fun l : Nat × ℚ × ℚ => l.2.1), zero_add]; rfl
  have hA : (joinedLines db cid).foldl (fun a l => a + l.2.1 * l.2.2 / 100) 0 =
      ((joinedLines db cid).map fun l => l.2.1 * l.2.2).sum / 100 := by
    rw [foldl_add_eq (fun l : Nat × ℚ × ℚ => l.2.1 * l.2.2 / 100), zero_add,
      sum_map_div (fun l : Nat × ℚ × ℚ => l.2.1 * l.2.2) 100]
  have hTnn : 0 ≤ totalVolumeSpec (joinedLines db cid) := by
    apply List.sum_nonneg
    intro x hx
    obtain ⟨l, hl, rfl⟩ := List.mem_map.1 hx
    exact h0 l hl
  rw [hT, hA]
  by_cases hT0 : totalVolumeSpec (joinedLines db cid) = 0
  · rw [if_pos hT0, if_neg (by rw [hT0]; exact lt_irrefl 0)]
  · have hTpos : 0 < totalVolumeSpec (joinedLines db cid) := lt_of_le_of_ne hTnn (Ne.symm hT0)
    rw [if_pos hTpos, if_neg hT0]
    field_simp
    ring

/-! ### `ORDER BY name` -/

theorem mem_insertByName {p q : Nat × Cocktail} {l : List (Nat × Cocktail)} :
    q ∈ insertByName p l ↔ q = p ∨ q ∈ l := by
  induction l with
  | nil => simp [insertByName]
  | cons r t ih =>
    unfold insertByName
    by_cases h : p.2.name ≤ r.2.name
    · simp [h]
    · simp only [if_neg h, List.mem_cons, ih]
      tauto

theorem mem_sortByName {q : Nat × Cocktail} {l : List (Nat × Cocktail)} :
    q ∈ sortByName l ↔ q ∈ l := by
  induction l with
  | nil => simp [sortByName]
  | cons r t ih =>
    unfold sortByName
    rw [mem_insertByName]
    simp [ih]

/-! ### Preservation of the invariants by the mutating operations -/

theorem wf_of_parts {db db' : DB} (hwf : wf db)
    (hi : db'.ingredients.map Prod.fst = db.ingredients.map Prod.fst)
    (hc : db'.cocktails = db.cocktails) (hr : db'.recipes = db.recipes)
    (hv : ∀ p ∈ db'.ingredients, 0 < p.2.volume_ml) : wf db' := by
  obtain ⟨h1, h2, _, h4⟩ := hwf
  exact ⟨by rw [hi]; exact h1, by rw [hc]; exact h2, hv, by rw [hr]; exact h4⟩

theorem sellLoop_vols (db : DB) (lines : List (Nat × ℚ))
    (hvol : ∀ p ∈ db.ingredients, 0 < p.2.volume_ml) :
    ∀ p ∈ (sellLoop db lines).ingredients, 0 < p.2.volume_ml := by
  induction lines generalizing db with
  | nil => exact hvol
  | cons l t ih =>
    obtain ⟨i, need⟩ := l
    unfold sellLoop
    cases hget : get_ingredient_by_id db i with
    | none => exact ih db hvol
    | some ing => exact ih _ (update_vols_pos i _ hvol)

theorem view_recipe_ids_nodup {db : DB} {cid : Nat} {c : CocktailView}
    (hnd : (db.recipes.map fun r => (r.1, r.2.1)).Nodup)
    (h : get_cocktail_by_id db cid = some c) : (c.recipe.map Prod.fst).Nodup := by
  obtain ⟨co, rfl⟩ := get_cocktail_view h
  rw [mkView_recipe, List.map_map]
  have he : (Prod.fst ∘ fun l : Nat × ℚ × ℚ => (l.1, l.2.1)) =
      fun l : Nat × ℚ × ℚ => l.1 := rfl
  rw [he]
  exact joined_ids_nodup db cid hnd

theorem check_true_pass {db : DB} {cid : Nat} {c : CocktailView}
    (h : get_cocktail_by_id db cid = some c)
    (hav : (check_cocktail_availability db cid).1 = true) :
    ∀ l ∈ c.recipe, linePasses db l := by
  unfold check_cocktail_availability at hav
  rw [h] at hav
  exact (checkLines_true_iff db c.recipe).1 hav

theorem sellLoop_preserves {db : DB} {lines : List (Nat × ℚ)}
    (hnd : (lines.map Prod.fst).Nodup)
    (hpass : ∀ l ∈ lines, linePasses db l)
    (hind : (db.ingredients.map Prod.fst).Nodup)
    (hvol : ∀ p ∈ db.ingredients, 0 < p.2.volume_ml)
    (h0 : qtysNonneg db) :
    qtysNonneg (sellLoop db lines) := by
  induction lines generalizing db with
  | nil => exact h0
  | cons l t ih =>
    obtain ⟨i, need⟩ := l
    obtain ⟨ing, hget, hq, hv⟩ := hpass (i, need) (by simp)
    dsimp only at hget hv
    simp only [List.map_cons, List.nodup_cons] at hnd
    unfold sellLoop
    rw [hget]
    have hmem := get_ingredient_mem hget
    have hvp : 0 < ing.volume_ml := hvol (i, ing) hmem
    have hle : units_needed need ing.volume_ml ≤ ing.quantity := units_needed_le hvp hv
    apply ih
    · exact hnd.2
    · intro x hx
      obtain ⟨ing2, hg2, hq2, hv2⟩ := hpass x (by simp [hx])
      refine ⟨ing2, ?_, hq2, hv2⟩
      rw [get_ingredient_update]
      have hxi : x.1 ≠ i := fun he => hnd.1 (he ▸ List.mem_map.2 ⟨x, hx, rfl⟩)
      simp [hxi, hg2]
    · rw [update_map_fst]; exact hind
    · exact update_vols_pos i _ hvol
    · apply qtysNonneg_update hind h0
      intro ing' hg'
      rw [hget] at hg'
      have : ing' = ing := by simpa using hg'.symm
      rw [this]
      omega

theorem sell_cocktail_parts (db : DB) (cid : Nat) :
    (sell_cocktail db cid).1.ingredients.map Prod.fst = db.ingredients.map Prod.fst ∧
    (sell_cocktail db cid).1.cocktails = db.cocktails ∧
    (sell_cocktail db cid).1.recipes = db.recipes ∧
    ((∀ p ∈ db.ingredients, 0 < p.2.volume_ml) →
      ∀ p ∈ (sell_cocktail db cid).1.ingredients, 0 < p.2.volume_ml) := by
  unfold sell_cocktail
  cases hc : get_cocktail_by_id db cid with
  | none => exact ⟨rfl, rfl, rfl, fun h => h⟩
  | some c =>
    dsimp only
    by_cases hav : (check_cocktail_availability db cid).1 = true
    · rw [if_pos hav]
      refine ⟨?_, ?_, ?_, ?_⟩
      · rw [appendSale_ingredients, sellLoop_map_fst]
      · rw [show (appendSale (sellLoop db c.recipe) _).cocktails =
            (sellLoop db c.recipe).cocktails from rfl, sellLoop_cocktails]
      · rw [show (appendSale (sellLoop db c.recipe) _).recipes =
            (sellLoop db c.recipe).recipes from rfl, sellLoop_recipes]
      · intro h
        rw [appendSale_ingredients]
        exact sellLoop_vols db c.recipe h
    · rw [if_neg hav]
      exact ⟨rfl, rfl, rfl, fun h => h⟩

theorem run_preserves {db : DB} (op : Op) (hwf : wf db) (h0 : qtysNonneg db)
    (hop : goodOp op = true) : wf (run db op) ∧ qtysNonneg (run db op) := by
  obtain ⟨hw1, hw2, hw3, hw4⟩ := hwf
  cases op with
  | adjust i d =>
    have hd : 0 ≤ d := by simpa [goodOp] using hop
    constructor
    · exact wf_of_parts ⟨hw1, hw2, hw3, hw4⟩ (update_map_fst db i d) rfl rfl
        (update_vols_pos i d hw3)
    · apply qtysNonneg_update hw1 h0
      intro ing hget
      have hq : 0 ≤ ing.quantity := h0 _ (get_ingredient_mem hget)
      omega
  | restock i q =>
    have hd : 0 ≤ q := by simpa [goodOp] using hop
    have hrun : run db (Op.restock i q) = (restock_ingredient db i q).1 := rfl
    rw [hrun]
    cases hget : get_ingredient_by_id db i with
    | none =>
      have he : restock_ingredient db i q = (db, RestockResult.notFound) := by
        unfold restock_ingredient; rw [hget]
      rw [he]
      exact ⟨⟨hw1, hw2, hw3, hw4⟩, h0⟩
    | some ing =>
      have he : restock_ingredient db i q =
          ((update_ingredient_quantity db i q).1, RestockResult.ok) := by
        unfold restock_ingredient; rw [hget]
      rw [he]
      constructor
      · exact wf_of_parts ⟨hw1, hw2, hw3, hw4⟩ (update_map_fst db i q) rfl rfl
          (update_vols_pos i q hw3)
      · apply qtysNonneg_update hw1 h0
        intro ing' hget'
        have hq : 0 ≤ ing'.quantity := h0 _ (get_ingredient_mem hget')
        omega
  | sellIng i q =>
    have hrun : run db (Op.sellIng i q) = (sell_ingredient db i q).1 := rfl
    rw [hrun]
    cases hget : get_ingredient_by_id db i with
    | none =>
      have he : sell_ingredient db i q = (db, SellIngResult.notFound) := by
        unfold sell_ingredient; rw [hget]
      rw [he]
      exact ⟨⟨hw1, hw2, hw3, hw4⟩, h0⟩
    | some ing =>
      by_cases hlt : ing.quantity < q
      · have he : sell_ingredient db i q = (db, SellIngResult.insufficient) := by
          unfold sell_ingredient; rw [hget]; dsimp only; rw [if_pos hlt]
        rw [he]
        exact ⟨⟨hw1, hw2, hw3, hw4⟩, h0⟩
      · have he : sell_ingredient db i q =
            (appendSale (update_ingredient_quantity db i (-q)).1
              { item_type := "ingredient", item_id := i, quantity := (q : ℚ),
                total_price := (q : ℚ) * ing.price_per_unit },
             SellIngResult.ok) := by
          unfold sell_ingredient; rw [hget]; dsimp only; rw [if_neg hlt]
        rw [he]
        dsimp only
        constructor
        · exact wf_of_parts ⟨hw1, hw2, hw3, hw4⟩
            (by rw [appendSale_ingredients, update_map_fst]) rfl rfl
            (by rw [appendSale_ingredients]; exact update_vols_pos i _ hw3)
        · intro p hp
          rw [appendSale_ingredients] at hp
          refine qtysNonneg_update hw1 h0 ?_ p hp
          intro ing' hget'
          rw [hget] at hget'
          have he2 : ing' = ing := by simpa using hget'.symm
          rw [he2]
          omega
  | sellCock cid =>
    have hrun : run db (Op.sellCock cid) = (sell_cocktail db cid).1 := rfl
    rw [hrun]
    constructor
    · obtain ⟨p1, p2, p3, p4⟩ := sell_cocktail_parts db cid
      exact wf_of_parts ⟨hw1, hw2, hw3, hw4⟩ p1 p2 p3 (p4 hw3)
    · unfold sell_cocktail
      cases hc : get_cocktail_by_id db cid with
      | none => exact h0
      | some c =>
        dsimp only
        by_cases hav : (check_cocktail_availability db cid).1 = true
        · rw [if_pos hav]
          intro p hp
          rw [appendSale_ingredients] at hp
          exact sellLoop_preserves (view_recipe_ids_nodup hw4 hc)
            (check_true_pass hc hav) hw1 hw3 h0 p hp
        · rw [if_neg hav]
          exact h0

theorem runOps_preserves {db : DB} (ops : List Op) (hwf : wf db) (h0 : qtysNonneg db)
    (hops : ∀ op ∈ ops, goodOp op = true) : wf (runOps db ops) ∧ qtysNonneg (runOps db ops) := by
  induction ops generalizing db with
  | nil => exact ⟨hwf, h0⟩
  | cons op t ih =>
    have h1 := run_preserves op hwf h0 (hops op (by simp))
    exact ih h1.1 h1.2 fun x hx => hops x (by simp [hx])

/-! ### Claim C1 -/

/-- C1 (amended): starting from a well-formed state in which every quantity
on hand is non-negative, any sequence of `update_ingredient_quantity`
(adjustQuantity), `sell_ingredient`, `sell_cocktail` and
`restock_ingredient` calls in which the direct adjustments and restocks
pass a non-negative amount leaves every quantity ≥ 0.  (As stated the
claim fails: `update_ingredient_quantity` applies its delta
unconditionally, and `restock_ingredient` does not validate the sign, so a
negative amount can push stock below zero — see the counterexample.) -/
theorem c1_quantities_nonneg (db : DB) (ops : List Op) (hwf : wf db)
    (h0 : qtysNonneg db) (hops : ∀ op ∈ ops, goodOp op = true) :
    qtysNonneg (runOps db ops) :=
  (runOps_preserves ops hwf h0 hops).2

unseal Rat.add Rat.mul Rat.inv Rat.sub in
/-- C1 counterexample: from a state with quantity 0, a single
`update_ingredient_quantity` (adjustQuantity) call with delta −1 drives
the quantity negative, refuting the claim for arbitrary adjust deltas. -/
theorem c1_counterexample :
    qtysNonneg dbC1 ∧ ¬ qtysNonneg (runOps dbC1 [Op.adjust 1 (-1)]) := by
  decide

unseal Rat.add Rat.mul Rat.inv Rat.sub in
/-- C1 witness: a restock, a recipe sale, an ingredient sale and a
non-negative adjustment on a concrete store keep the quantity ≥ 0. -/
theorem c1_witness :
    qtysNonneg (runOps dbW1 [Op.restock 1 3, Op.sellCock 1, Op.sellIng 1 2, Op.adjust 1 1]) :=
  c1_quantities_nonneg dbW1 _ (by decide) (by decide) (by decide)

/-! ### Claim C4 -/

/-- C4: whenever `sell_cocktail` fails — the recipe is not found, or the
availability check reports a failing line — the returned state is exactly
the input state: every ingredient quantity is unchanged and no sale record
is appended. -/
theorem c4_sell_cocktail_failure_atomic (db : DB) (cid : Nat)
    (h : get_cocktail_by_id db cid = none ∨ (check_cocktail_availability db cid).1 = false) :
    (sell_cocktail db cid).1 = db ∧ (sell_cocktail db cid).2 ≠ SellCockResult.ok := by
  unfold sell_cocktail
  rcases h with h | h
  · rw [h]
    exact ⟨rfl, by simp⟩
  · cases hc : get_cocktail_by_id db cid with
    | none => exact ⟨rfl, by simp⟩
    | some c =>
      dsimp only
      rw [if_neg (by simp [h])]
      exact ⟨rfl, by simp⟩

unseal Rat.add Rat.mul Rat.inv Rat.sub in
/-- C4 witness: selling a cocktail whose only line is out of stock leaves
the concrete store untouched and does not report success. -/
theorem c4_witness :
    (sell_cocktail dbW4 1).1 = dbW4 ∧ (sell_cocktail dbW4 1).2 ≠ SellCockResult.ok :=
  c4_sell_cocktail_failure_atomic dbW4 1 (Or.inr (by decide))

/-! ### Claim C5 -/

/-- C5: `sell_ingredient` fails with NotFound when the id is absent, fails
with InsufficientStock exactly when the requested quantity exceeds the
quantity on hand, and on success reports ok, reduces the quantity by
exactly the request and appends one ingredient-kind sale with
`total_price = quantity × price_per_unit`. -/
theorem c5_sell_ingredient (db : DB) (i : Nat) (q : ℤ) :
    (get_ingredient_by_id db i = none → sell_ingredient db i q = (db, SellIngResult.notFound)) ∧
    ∀ ing, get_ingredient_by_id db i = some ing →
      ((sell_ingredient db i q).2 = SellIngResult.insufficient ↔ ing.quantity < q) ∧
      (q ≤ ing.quantity →
        (sell_ingredient db i q).2 = SellIngResult.ok ∧
        qty (sell_ingredient db i q).1 i = some (ing.quantity - q) ∧
        (sell_ingredient db i q).1.sales = db.sales ++
          [{ item_type := "ingredient", item_id := i, quantity := (q : ℚ),
             total_price := (q : ℚ) * ing.price_per_unit }]) := by
  constructor
  · intro h
    unfold sell_ingredient
    rw [h]
  · intro ing hget
    by_cases hlt : ing.quantity < q
    · have he : sell_ingredient db i q = (db, SellIngResult.insufficient) := by
        unfold sell_ingredient; rw [hget]; dsimp only; rw [if_pos hlt]
      rw [he]
      exact ⟨by simp [hlt], fun hle => absurd hlt (by omega)⟩
    · have he : sell_ingredient db i q =
          (appendSale (update_ingredient_quantity db i (-q)).1
            { item_type := "ingredient", item_id := i, quantity := (q : ℚ),
              total_price := (q : ℚ) * ing.price_per_unit },
           SellIngResult.ok) := by
        unfold sell_ingredient; rw [hget]; dsimp only; rw [if_neg hlt]
      rw [he]
      dsimp only
      constructor
      · simp [hlt]
      · intro _
        refine ⟨rfl, ?_, ?_⟩
        · unfold qty
          rw [get_ingredient_appendSale, get_ingredient_update, if_pos rfl, hget]
          simp [sub_eq_add_neg]
        · show (appendSale (update_ingredient_quantity db i (-q)).1 _).sales = _
          unfold appendSale
          rw [update_sales]

unseal Rat.add Rat.mul Rat.inv Rat.sub in
/-- C5 witness: selling 5 units of an ingredient with unit price 20 and 7
on hand succeeds, charges 100, and leaves 2 on hand. -/
theorem c5_witness :
    (sell_ingredient dbW5 1 5).2 = SellIngResult.ok ∧
    qty (sell_ingredient dbW5 1 5).1 1 = some 2 ∧
    (sell_ingredient dbW5 1 5).1.sales =
      [{ item_type := "ingredient", item_id := 1, quantity := 5, total_price := 100 }] := by
  have h := ((c5_sell_ingredient dbW5 1 5).2 ⟨"Gin", 40, 700, 7, 20⟩ (by decide)).2 (by decide)
  refine ⟨h.1, ?_, ?_⟩
  · rw [h.2.1]
    decide
  · rw [h.2.2]
    decide

/-! ### Claim C8 -/

/-- C8 (amended): `restock_ingredient` fails with NotFound when the id is
absent; otherwise it succeeds for any integer amount, adding exactly the
given quantity to the stock and appending no sale record.  (As stated the
claim fails: the method performs no sign validation — the zero/negative
rejection lives in the calling GUI dialog — see the counterexample.) -/
theorem c8_restock (db : DB) (i : Nat) (q : ℤ) :
    (get_ingredient_by_id db i = none → restock_ingredient db i q = (db, RestockResult.notFound)) ∧
    ∀ ing, get_ingredient_by_id db i = some ing →
      (restock_ingredient db i q).2 = RestockResult.ok ∧
      qty (restock_ingredient db i q).1 i = some (ing.quantity + q) ∧
      (restock_ingredient db i q).1.sales = db.sales := by
  constructor
  · intro h
    unfold restock_ingredient
    rw [h]
  · intro ing hget
    have he : restock_ingredient db i q =
        ((update_ingredient_quantity db i q).1, RestockResult.ok) := by
      unfold restock_ingredient; rw [hget]
    rw [he]
    dsimp only
    refine ⟨rfl, ?_, update_sales db i q⟩
    unfold qty
    rw [get_ingredient_update, if_pos rfl, hget]
    rfl

unseal Rat.add Rat.mul Rat.inv Rat.sub in
/-- C8 counterexample: `restock_ingredient` with quantity −3 is accepted
(result ok) and reduces the stock from 5 to 2, refuting "rejects any
quantity that is zero or negative". -/
theorem c8_counterexample :
    (restock_ingredient dbC8 1 (-3)).2 = RestockResult.ok ∧
    qty (restock_ingredient dbC8 1 (-3)).1 1 = some 2 := by
  decide

unseal Rat.add Rat.mul Rat.inv Rat.sub in
/-- C8 witness: restocking an absent id fails with NotFound; restocking 4
units of an existing ingredient with 5 on hand yields 9 and appends
nothing. -/
theorem c8_witness :
    restock_ingredient dbC8 9 4 = (dbC8, RestockResult.notFound) ∧
    (restock_ingredient dbC8 1 4).2 = RestockResult.ok ∧
    qty (restock_ingredient dbC8 1 4).1 1 = some 9 ∧
    (restock_ingredient dbC8 1 4).1.sales = dbC8.sales := by
  have h := (c8_restock dbC8 1 4).2 ⟨"Vodka", 40, 50, 5, 20⟩ (by decide)
  exact ⟨(c8_restock dbC8 9 4).1 (by decide), h.1, by rw [h.2.1]; decide, h.2.2⟩

/-! ### Claim C9 -/

/-- C9: `add_ingredient` with a name equal (case-sensitive exact string
match) to an existing ingredient name fails with DuplicateName and leaves
the store unchanged; with a fresh name it succeeds and appends the
supplied record under the next id. -/
theorem c9_add_ingredient (db : DB) (ing : Ingredient) :
    ((∃ p ∈ db.ingredients, p.2.name = ing.name) → add_ingredient db ing = (db, none)) ∧
    ((∀ p ∈ db.ingredients, p.2.name ≠ ing.name) →
      (add_ingredient db ing).2 = some db.nextIngId ∧
      (add_ingredient db ing).1.ingredients = db.ingredients ++ [(db.nextIngId, ing)]) := by
  constructor
  · intro h
    obtain ⟨p, hp, he⟩ := h
    have hb : (db.ingredients.any fun p => p.2.name == ing.name) = true :=
      List.any_eq_true.2 ⟨p, hp, by simp [he]⟩
    unfold add_ingredient
    rw [if_pos hb]
  · intro h
    have hb : ¬ (db.ingredients.any fun p => p.2.name == ing.name) = true := by
      intro hc
      obtain ⟨p, hp, he⟩ := List.any_eq_true.1 hc
      exact h p hp (by simpa using he)
    unfold add_ingredient
    rw [if_neg hb]
    exact ⟨rfl, rfl⟩

unseal Rat.add Rat.mul Rat.inv Rat.sub in
/-- C9 witness: adding "Vodka" when "Vodka" exists fails and changes
nothing; adding "vodka" (different case) succeeds and stores the record. -/
theorem c9_witness :
    add_ingredient dbW9 ⟨"Vodka", 35, 100, 1, 15⟩ = (dbW9, none) ∧
    (add_ingredient dbW9 ⟨"vodka", 35, 100, 1, 15⟩).2 = some 2 ∧
    (add_ingredient dbW9 ⟨"vodka", 35, 100, 1, 15⟩).1.ingredients =
      dbW9.ingredients ++ [(2, ⟨"vodka", 35, 100, 1, 15⟩)] := by
  have h := (c9_add_ingredient dbW9 ⟨"vodka", 35, 100, 1, 15⟩).2 (by decide)
  exact ⟨(c9_add_ingredient dbW9 ⟨"Vodka", 35, 100, 1, 15⟩).1 (by decide), h.1, h.2⟩

/-! ### Claims C2 and C3: helpers -/

theorem view_recipe_eq {db : DB} {cid : Nat} {c : CocktailView}
    (hc : get_cocktail_by_id db cid = some c) :
    c.recipe = (recipeRows db cid).filterMap fun r =>
      (get_ingredient_by_id db r.2.1).map fun _ => (r.2.1, r.2.2) := by
  obtain ⟨co, rfl⟩ := get_cocktail_view hc
  rw [mkView_recipe]
  unfold joinedLines
  rw [List.map_filterMap]
  congr 1
  funext r
  cases hg : get_ingredient_by_id db r.2.1 <;> simp [hg]

theorem mem_view_recipe_exists {db : DB} {cid : Nat} {c : CocktailView}
    (hc : get_cocktail_by_id db cid = some c) {i : Nat} {need : ℚ}
    (hmem : (i, need) ∈ c.recipe) : ∃ ing, get_ingredient_by_id db i = some ing := by
  rw [view_recipe_eq hc] at hmem
  obtain ⟨r, hr, hre⟩ := List.mem_filterMap.1 hmem
  cases hg : get_ingredient_by_id db r.2.1 with
  | none => rw [hg] at hre; simp at hre
  | some ing =>
    rw [hg] at hre
    simp only [Option.map_some'] at hre
    have he : r.2.1 = i := congrArg Prod.fst (Option.some_inj.1 hre)
    rw [he] at hg
    exact ⟨ing, hg⟩

/-! ### Claim C2 -/

/-- C2 (amended): for an existing recipe, in a state with non-negative
quantities, `check_cocktail_availability` returns Available if and only
if every line of the recipe view passes (referenced ingredient resolvable,
quantity > 0, and quantity × volume_ml ≥ required volume); the recipe
view consists of the stored lines **whose ingredient exists** — lines
referencing an absent ingredient are silently dropped by the SQL join
(see the counterexample), rather than making the check fail; the first
failing view line determines the reason: out-of-stock when its quantity
is zero, otherwise the insufficient-volume message with the needed and
available volumes.  The check itself mutates nothing: it is a pure
function of the state by construction. -/
theorem c2_check_availability (db : DB) (cid : Nat) (hq : qtysNonneg db) :
    ∀ c, get_cocktail_by_id db cid = some c →
      (((check_cocktail_availability db cid).1 = true) ↔ ∀ l ∈ c.recipe, linePasses db l) ∧
      (c.recipe = (recipeRows db cid).filterMap fun r =>
        (get_ingredient_by_id db r.2.1).map fun _ => (r.2.1, r.2.2)) ∧
      (∀ pre i need rest, c.recipe = pre ++ (i, need) :: rest →
        (∀ l ∈ pre, linePasses db l) → ¬ linePasses db (i, need) →
        ∃ ing, get_ingredient_by_id db i = some ing ∧
          ((ing.quantity = 0 ∧
              (check_cocktail_availability db cid).2 = Reason.outOfStock ing.name) ∨
           (0 < ing.quantity ∧ (ing.quantity : ℚ) * ing.volume_ml < need ∧
              (check_cocktail_availability db cid).2 =
                Reason.insufficient ing.name need ((ing.quantity : ℚ) * ing.volume_ml)))) := by
  intro c hc
  have hck : check_cocktail_availability db cid = checkLines db c.recipe := by
    unfold check_cocktail_availability
    rw [hc]
  refine ⟨by rw [hck]; exact checkLines_true_iff db c.recipe, view_recipe_eq hc, ?_⟩
  intro pre i need rest hrec hpre hfail
  have hmem : (i, need) ∈ c.recipe := by rw [hrec]; simp
  obtain ⟨ing, hg⟩ := mem_view_recipe_exists hc hmem
  refine ⟨ing, hg, ?_⟩
  have h0 : 0 ≤ ing.quantity := hq _ (get_ingredient_mem hg)
  rw [hck, hrec, checkLines_append_pass hpre]
  by_cases hqz : ing.quantity ≤ 0
  · left
    refine ⟨by omega, ?_⟩
    simp only [checkLines, hg]
    rw [if_pos hqz]
  · right
    have hqpos : 0 < ing.quantity := by omega
    have hvol : (ing.quantity : ℚ) * ing.volume_ml < need := by
      by_contra hcon
      push_neg at hcon
      exact hfail ⟨ing, hg, hqpos, hcon⟩
    refine ⟨hqpos, hvol, ?_⟩
    simp only [checkLines, hg]
    rw [if_neg hqz, if_pos hvol]

unseal Rat.add Rat.mul Rat.inv Rat.sub in
/-- C2 counterexample: a stored recipe line referencing the absent
ingredient id 99 does not make the check fail — the join drops it and the
check reports Available, refuting the claimed "if and only if every
recipe line's referenced ingredient exists …". -/
theorem c2_counterexample :
    (check_cocktail_availability dbC2 1).1 = true ∧
    (1, 99, (10 : ℚ)) ∈ dbC2.recipes ∧
    get_ingredient_by_id dbC2 99 = none := by
  decide

unseal Rat.add Rat.mul Rat.inv Rat.sub in
/-- C2 witness: on a concrete store whose single line passes, the check
applied through the theorem reports Available. -/
theorem c2_witness : (check_cocktail_availability dbW2 1).1 = true := by
  have h := (c2_check_availability dbW2 1 (by decide)
      ⟨1, "Shot", 90, [(1, 80)], 38, 80⟩ (by decide)).1
  apply h.mpr
  intro l hl
  simp only [List.mem_singleton] at hl
  subst hl
  exact ⟨⟨"Tequila", 38, 50, 2, 30⟩, by decide, by decide, by decide⟩

/-! ### Claim C3 -/

/-- C3 (amended): when `sell_cocktail` succeeds, each recipe-view line's
ingredient is depleted by exactly
`units_needed = ⌊(requiredVolume + unitVolume − 1) / unitVolume⌋`; this
equals `⌈requiredVolume / unitVolume⌉` whenever both volumes are positive
integers (and in particular 120 ml at unit volume 50 consumes
⌈120∕50⌉ = 3 units), but for fractional required volumes the two differ
(see the counterexample), so the claim's unconditional "equals
ceil(requiredVolumeMl / unitVolumeMl)" does not hold. -/
theorem c3_sell_consumes (db : DB) (cid : Nat) (hwf : wf db) :
    (∀ c, get_cocktail_by_id db cid = some c →
      (check_cocktail_availability db cid).1 = true →
      ∀ i need ing, (i, need) ∈ c.recipe → get_ingredient_by_id db i = some ing →
        qty (sell_cocktail db cid).1 i =
          some (ing.quantity - units_needed need ing.volume_ml)) ∧
    ∀ a b : ℕ, 0 < b → units_needed (a : ℚ) (b : ℚ) = ⌈(a : ℚ) / (b : ℚ)⌉ := by
  constructor
  · intro c hc hav i need ing hmem hget
    have he : sell_cocktail db cid =
        (appendSale (sellLoop db c.recipe)
          { item_type := "cocktail", item_id := cid, quantity := 1, total_price := c.price },
         SellCockResult.ok) := by
      unfold sell_cocktail
      rw [hc]
      dsimp only
      rw [if_pos hav]
    rw [he]
    dsimp only
    unfold qty
    rw [get_ingredient_appendSale,
      sellLoop_get_mem (view_recipe_ids_nodup hwf.2.2.2 hc) hmem hget]
    rfl
  · exact units_needed_natCast

unseal Rat.add Rat.mul Rat.inv Rat.sub in
/-- C3 counterexample: a line needing 0.5 ml of an ingredient with unit
volume 50 ml sells successfully yet consumes 0 units (stock stays 1),
while ⌈0.5∕50⌉ = 1 — the code's floor-based formula is not the claimed
ceiling for fractional volumes. -/
theorem c3_counterexample :
    (sell_cocktail dbC3 1).2 = SellCockResult.ok ∧
    qty (sell_cocktail dbC3 1).1 1 = some 1 ∧
    units_needed (1 / 2) 50 = 0 ∧
    (⌈((1 : ℚ) / 2) / 50⌉ : ℤ) = 1 := by
  decide

unseal Rat.add Rat.mul Rat.inv Rat.sub in
/-- C3 witness: selling a recipe needing 120 ml of an ingredient with unit
volume 50 and 5 on hand consumes exactly 3 units, leaving 2. -/
theorem c3_witness :
    qty (sell_cocktail dbW3 1).1 1 = some 2 ∧ units_needed 120 50 = 3 := by
  constructor
  · have h := (c3_sell_consumes dbW3 1 (by decide)).1 ⟨1, "Mix", 150, [(1, 120)], 40, 120⟩
      (by decide) (by decide) 1 120 ⟨"Rum", 40, 50, 5, 20⟩ (by decide) (by decide)
    rw [h]
    decide
  · decide

/-! ### Claim C6 -/

/-- C6 (amended): a recipe read returns total volume Σ volume_i over the
joined lines and blended strength equal to
`round(Σ(volume_i × strength_i) / Σ(volume_i), 1)` — the volume-weighted
average **rounded to one decimal place** (zero when the total volume is
zero), for both `get_cocktail_by_id` and `get_all_cocktails`; for the
claim's example the quoted strength is therefore 26.7, not 26.67 (see the
counterexample). -/
theorem c6_blended_strength (db : DB) (cid : Nat)
    (h0 : ∀ l ∈ joinedLines db cid, 0 ≤ l.2.1) :
    (∀ c, get_cocktail_by_id db cid = some c →
      c.volume = totalVolumeSpec (joinedLines db cid) ∧
      c.alcohol_percent = pyRound1 (blendedStrength (joinedLines db cid))) ∧
    (∀ v ∈ get_all_cocktails db, v.id = cid →
      v.volume = totalVolumeSpec (joinedLines db cid) ∧
      v.alcohol_percent = pyRound1 (blendedStrength (joinedLines db cid))) := by
  constructor
  · intro c hc
    obtain ⟨co, rfl⟩ := get_cocktail_view hc
    exact ⟨mkView_volume db cid co, mkView_alcohol db cid co h0⟩
  · intro v hv hid
    unfold get_all_cocktails at hv
    obtain ⟨p, hp, rfl⟩ := List.mem_map.1 hv
    have he : p.1 = cid := hid
    subst he
    exact ⟨mkView_volume db p.1 p.2, mkView_alcohol db p.1 p.2 h0⟩

unseal Rat.add Rat.mul Rat.inv Rat.sub in
/-- C6 counterexample: for lines {(A, 100 ml, 40%), (B, 50 ml, 0%)} the
returned blended strength is 26.7 (rounded to one decimal), which is
neither the claimed 26.67 nor the exact 80⁄3 = 26.66…; the total volume
150 ml is as claimed. -/
theorem c6_counterexample :
    (get_cocktail_by_id dbC6 1).map (fun c => c.alcohol_percent) = some (267 / 10) ∧
    ((267 : ℚ) / 10 ≠ 2667 / 100) ∧ ((267 : ℚ) / 10 ≠ 80 / 3) ∧
    (get_cocktail_by_id dbC6 1).map (fun c => c.volume) = some 150 := by
  decide

unseal Rat.add Rat.mul Rat.inv Rat.sub in
/-- C6 witness: on the example store the theorem yields volume 150 and the
rounded weighted average as the returned strength. -/
theorem c6_witness :
    (150 : ℚ) = totalVolumeSpec (joinedLines dbC6 1) ∧
    (267 / 10 : ℚ) = pyRound1 (blendedStrength (joinedLines dbC6 1)) := by
  have h := (c6_blended_strength dbC6 1 (by decide)).1
    ⟨1, "Mix", 100, [(1, 100), (2, 50)], 267 / 10, 150⟩ (by decide)
  exact ⟨h.1, h.2⟩

/-! ### Claim C7 -/

/-- C7 (amended): `add_cocktail` fails with DuplicateName — storing no
recipe or recipe lines — exactly when the name already exists; otherwise
it succeeds and stores the name, price and every supplied line as given,
even when a line references an absent ingredient id or the line mapping
is empty (foreign keys are not enforced and the method performs no
emptiness check — the claimed UnknownIngredient and EmptyRecipe failures
do not exist in this method; the GUI rejects empty recipes before
calling). -/
theorem c7_add_cocktail (db : DB) (nm : String) (price : ℚ) (rl : List (Nat × ℚ)) :
    ((∃ p ∈ db.cocktails, p.2.name = nm) → add_cocktail db nm price rl = (db, none)) ∧
    ((∀ p ∈ db.cocktails, p.2.name ≠ nm) →
      (add_cocktail db nm price rl).2 = some db.nextCockId ∧
      (add_cocktail db nm price rl).1.cocktails =
        db.cocktails ++ [(db.nextCockId, ⟨nm, price⟩)] ∧
      (add_cocktail db nm price rl).1.recipes =
        db.recipes ++ rl.map (fun l => (db.nextCockId, l.1, l.2)) ∧
      (add_cocktail db nm price rl).1.ingredients = db.ingredients) := by
  constructor
  · intro h
    obtain ⟨p, hp, he⟩ := h
    have hb : (db.cocktails.any fun p => p.2.name == nm) = true :=
      List.any_eq_true.2 ⟨p, hp, by simp [he]⟩
    unfold add_cocktail
    rw [if_pos hb]
  · intro h
    have hb : ¬ (db.cocktails.any fun p => p.2.name == nm) = true := by
      intro hc
      obtain ⟨p, hp, he⟩ := List.any_eq_true.1 hc
      exact h p hp (by simpa using he)
    unfold add_cocktail
    rw [if_neg hb]
    exact ⟨rfl, rfl, rfl, rfl⟩

unseal Rat.add Rat.mul Rat.inv Rat.sub in
/-- C7 counterexample: on an empty store, adding a cocktail whose only
line references the absent ingredient id 99 succeeds and stores that
line, and adding one with an empty line mapping also succeeds — refuting
the claimed UnknownIngredient and EmptyRecipe failures. -/
theorem c7_counterexample :
    (add_cocktail dbC7 "X" 5 [(99, 10)]).2 = some 1 ∧
    (add_cocktail dbC7 "X" 5 [(99, 10)]).1.recipes = [(1, 99, 10)] ∧
    get_ingredient_by_id dbC7 99 = none ∧
    (add_cocktail dbC7 "Y" 5 []).2 = some 1 := by
  decide

unseal Rat.add Rat.mul Rat.inv Rat.sub in
/-- C7 witness: a duplicate name is rejected with the store unchanged; a
fresh name is stored together with its line. -/
theorem c7_witness :
    add_cocktail dbW7 "Old" 3 [] = (dbW7, none) ∧
    (add_cocktail dbW7 "New" 3 [(1, 10)]).2 = some 2 ∧
    (add_cocktail dbW7 "New" 3 [(1, 10)]).1.recipes = dbW7.recipes ++ [(2, 1, 10)] := by
  have h := (c7_add_cocktail dbW7 "New" 3 [(1, 10)]).2 (by decide)
  refine ⟨(c7_add_cocktail dbW7 "Old" 3 []).1 (by decide), h.1, ?_⟩
  rw [h.2.2.1]
  decide

/-! ### Claim C10 -/

/-- C10: the blended strength returned by recipe reads — both
`get_cocktail_by_id` and `get_all_cocktails` — is the volume-weighted
average rounded to one decimal place: `round(Σ(v_i × s_i) / Σ(v_i), 1)`,
not the exact average. -/
theorem c10_alcohol_rounded (db : DB) (cid : Nat)
    (h0 : ∀ l ∈ joinedLines db cid, 0 ≤ l.2.1) :
    (∀ c, get_cocktail_by_id db cid = some c →
      c.alcohol_percent = pyRound1 (blendedStrength (joinedLines db cid))) ∧
    (∀ v ∈ get_all_cocktails db, v.id = cid →
      v.alcohol_percent = pyRound1 (blendedStrength (joinedLines db cid))) := by
  constructor
  · intro c hc
    obtain ⟨co, rfl⟩ := get_cocktail_view hc
    exact mkView_alcohol db cid co h0
  · intro v hv hid
    unfold get_all_cocktails at hv
    obtain ⟨p, hp, rfl⟩ := List.mem_map.1 hv
    have he : p.1 = cid := hid
    subst he
    exact mkView_alcohol db p.1 p.2 h0

unseal Rat.add Rat.mul Rat.inv Rat.sub in
/-- C10 witness: an exact weighted average of 35.625% is quoted as 35.6 —
the rounded value, distinct from the exact one. -/
theorem c10_witness :
    (178 / 5 : ℚ) = pyRound1 (blendedStrength (joinedLines dbW10 1)) ∧
    pyRound1 (blendedStrength (joinedLines dbW10 1)) ≠ blendedStrength (joinedLines dbW10 1) := by
  have h := (c10_alcohol_rounded dbW10 1 (by decide)).1
    ⟨1, "T", 80, [(1, 100), (2, 60)], 178 / 5, 160⟩ (by decide)
  exact ⟨h, by decide⟩

end Drinks
